import Mathlib

/-!
Verification development for the `backuper` repository
(`src/archiver.py` and `src/archiver_fixed.py`).

The Python sources are shallowly embedded below:
pure string helpers become Lean functions on `List Char` / `String`,
the stateful per-run loops become explicit state-passing functions,
and all external effects (HTTP responses, the clock, `random`, the
file system) are passed in as explicit oracle arguments.
-/

namespace Backuper

/-- Python's whitespace set used by `str.strip()`: all code points for
which `str.isspace()` holds (ASCII controls 09-0d and 1c-1f, space, NEL,
NBSP, and the Unicode space separators). -/
def pyIsSpace (c : Char) : Bool :=
  (0x9 ≤ c.toNat && c.toNat ≤ 0xd) || (0x1c ≤ c.toNat && c.toNat ≤ 0x1f) ||
  c.toNat = 0x20 || c.toNat = 0x85 || c.toNat = 0xa0 || c.toNat = 0x1680 ||
  (0x2000 ≤ c.toNat && c.toNat ≤ 0x200a) || c.toNat = 0x2028 ||
  c.toNat = 0x2029 || c.toNat = 0x202f || c.toNat = 0x205f || c.toNat = 0x3000

/-- Python `str.strip()` on a list of characters. -/
def stripL (s : List Char) : List Char :=
  ((s.dropWhile pyIsSpace).reverse.dropWhile pyIsSpace).reverse

/-- Python `str.rstrip()` on a list of characters (trailing whitespace
removal; `stripL s = rstripL (s.dropWhile pyIsSpace)`). -/
def rstripL (s : List Char) : List Char :=
  (s.reverse.dropWhile pyIsSpace).reverse

/-- Python `str.split('|')` on a list of characters: `"" ↦ [""]`,
separators produce empty fields. -/
def splitPipe : List Char → List (List Char)
  | [] => [[]]
  | c :: cs =>
    if c = '|' then [] :: splitPipe cs
    else
      match splitPipe cs with
      | [] => [[c]]
      | r :: rs => (c :: r) :: rs

/-- Fuel-driven worker for Python `str.replace`: replaces non-overlapping
occurrences of `pat` left to right.  The fuel is the length of the scanned
list, which suffices because each step consumes at least one character. -/
def replAux (pat rep : List Char) : Nat → List Char → List Char
  | 0, s => s
  | _ + 1, [] => []
  | fuel + 1, c :: cs =>
    if pat.isPrefixOf (c :: cs) then
      rep ++ replAux pat rep fuel ((c :: cs).drop pat.length)
    else
      c :: replAux pat rep fuel cs

/-- Python `str.replace(pat, rep)` (for nonempty `pat`; the sources never
call it with an empty pattern, for which we return the input unchanged). -/
def replaceL (s pat rep : List Char) : List Char :=
  match pat with
  | [] => s
  | _ :: _ => replAux pat rep s.length s

/-- Python substring test `pat in s`. -/
def containsSub (pat s : List Char) : Bool :=
  s.tails.any (fun t => pat.isPrefixOf t)

/-- Python `str.replace` lifted to `String`. -/
def pyReplace (s pat rep : String) : String :=
  ⟨replaceL s.data pat.data rep.data⟩

/-- Python `pat in s` lifted to `String`. -/
def pyContains (pat s : String) : Bool :=
  containsSub pat.data s.data

/-- `REDLIB_INSTANCES` from `archiver.py`. -/
def REDLIB_INSTANCES : List String :=
  [ "redlib.nohost.network",
    "redlib.privacydev.net",
    "redlib.perennialte.ch",
    "redlib.drgns.space",
    "redlib.privacy.com.de",
    "redlib.pussthecat.org",
    "redlib.nadeko.net",
    "redlib.baczek.me",
    "redlib.hostux.net",
    "rl.bloat.cat",
    "redlib.private.coffee" ]

/-- The instance list at the `List Char` level. -/
def instL : List (List Char) := REDLIB_INSTANCES.map String.data

def wwwRedditL : List Char := "www.reddit.com".data
def oldRedditL : List Char := "old.reddit.com".data
def redditL : List Char := "reddit.com".data
def wwwwwwL : List Char := "www.www.".data
def wwwL : List Char := "www.".data

/-- The `for inst in REDLIB_INSTANCES: if inst in clean: clean = clean.replace(inst, "reddit.com"); break`
loop from `convert_to_redlib`. -/
def firstMatchL : List (List Char) → List Char → List Char
  | [], c => c
  | i :: rest, c =>
    if containsSub i c then replaceL c i redditL else firstMatchL rest c

/-- `convert_to_redlib` from `archiver.py`, at the `List Char` level. -/
def convRedlibL (url inst : List Char) : List Char :=
  replaceL
    (firstMatchL instL (replaceL (replaceL url wwwRedditL redditL) oldRedditL redditL))
    redditL inst

/-- The `for inst in REDLIB_INSTANCES: clean = clean.replace(inst, "www.reddit.com")`
loop from `convert_to_standard`. -/
def stdFoldL (is : List (List Char)) (u : List Char) : List Char :=
  is.foldl (fun c i => replaceL c i wwwRedditL) u

/-- `convert_to_standard` from `archiver.py`, at the `List Char` level. -/
def convStdL (url : List Char) : List Char :=
  replaceL
    (replaceL (replaceL (stdFoldL instL url) oldRedditL wwwRedditL) redditL wwwRedditL)
    wwwwwwL wwwL

/-- `convert_to_redlib(url, instance)` from `archiver.py`. -/
def convert_to_redlib (url inst : String) : String :=
  ⟨convRedlibL url.data inst.data⟩

/-- `convert_to_standard(url)` from `archiver.py`. -/
def convert_to_standard (url : String) : String :=
  ⟨convStdL url.data⟩

/-- Hosts that the feed sources of `archiver.py` can produce in entry links:
the Redlib instances, Reddit itself (JSON fallback), and the old/bare domains. -/
def feedHosts : List String :=
  "www.reddit.com" :: "old.reddit.com" :: "reddit.com" :: REDLIB_INSTANCES

/-- Characters allowed in the path part of a well-formed feed URL
(alphanumerics, `_`, `-` and `/`; in particular no `.`). -/
def safePathChar (c : Char) : Bool :=
  c.isAlphanum || c = '_' || c = '-' || c = '/'

/-- A Python status value as used by the archivers: an HTTP status code
or a string result such as `"Timeout"`. -/
inductive PyStatus where
  | code (n : Nat)
  | msg (s : String)
deriving DecidableEq

/-- Python `f"{status}"` for a status value. -/
def statusStr : PyStatus → String
  | .code n => toString n
  | .msg s => s

/-- The outcome of one outbound HTTP request, as seen by the caller. -/
inductive NetOutcome where
  | status (n : Nat) (url : String)
  | timeout
  | connError (msg : String)
  | exc (msg : String)
deriving DecidableEq

/-- The `https://<host>/` prefix of a well-formed feed URL, as characters. -/
def hpL (h : String) : List Char :=
  "https://".data ++ h.data ++ ['/']

/-- A well-formed feed URL: `https://` + a known host + `/` + a path of
safe characters (reddit post permalinks have this shape). -/
def WellFormedFeedURL (u : String) : Prop :=
  ∃ h : String, ∃ p : List Char,
    h ∈ feedHosts ∧
    u.data = hpL h ++ p ∧
    ∀ c ∈ p, safePathChar c = true

/-- Side condition for pushing a pattern-free tail `p` through one
`replace` step on `x ++ p`: for every suffix `t` of `x` that is a proper
prefix of `pat`, the remainder of `pat` contains a `'.'` (which a safe
path cannot supply), so no occurrence of `pat` straddles the boundary. -/
def pushCond (x pat : List Char) : Bool :=
  x.tails.all (fun t =>
    decide (pat.length ≤ t.length) || !(t.isPrefixOf pat) ||
      (pat.drop t.length).contains '.')

/-- Side conditions for pushing `p` through the `firstMatchL` loop on `x ++ p`. -/
def fmCond (is : List (List Char)) (x : List Char) : Bool :=
  is.all (fun i => !i.isEmpty && i.contains '.' && pushCond x i)

/-- Side conditions for pushing `p` through the `stdFoldL` loop on `x ++ p`:
the scanned string changes at each iteration, so the condition is checked
against each intermediate string. -/
def foldCond : List (List Char) → List Char → Bool
  | [], _ => true
  | i :: rest, x =>
    !i.isEmpty && i.contains '.' && pushCond x i &&
      foldCond rest (replaceL x i wwwRedditL)

/-- Side conditions letting `convStdL (x ++ p) = convStdL x ++ p`. -/
def stdCond (x : List Char) : Bool :=
  foldCond instL x &&
  pushCond (stdFoldL instL x) oldRedditL &&
  pushCond (replaceL (stdFoldL instL x) oldRedditL wwwRedditL) redditL &&
  pushCond (replaceL (replaceL (stdFoldL instL x) oldRedditL wwwRedditL) redditL wwwRedditL) wwwwwwL

/-- Side conditions letting `convRedlibL (x ++ p) i = convRedlibL x i ++ p`
(they do not depend on the replacement instance `i`). -/
def redCond (x : List Char) : Bool :=
  pushCond x wwwRedditL &&
  pushCond (replaceL x wwwRedditL redditL) oldRedditL &&
  fmCond instL (replaceL (replaceL x wwwRedditL redditL) oldRedditL redditL) &&
  pushCond (firstMatchL instL (replaceL (replaceL x wwwRedditL redditL) oldRedditL redditL)) redditL

/-- Combined decidable certificate for the round-trip claim at
host-prefix `x` and instance `i`. -/
def c7ok (x i : List Char) : Bool :=
  redCond x && stdCond (convRedlibL x i) && stdCond x &&
    (convStdL (convRedlibL x i) == convStdL x)

/-- Combined decidable certificate for the idempotence claim at
host-prefix `x` and instance `i`. -/
def c8ok (x i : List Char) : Bool :=
  redCond x && redCond (convRedlibL x i) &&
    (convRedlibL (convRedlibL x i) i == convRedlibL x i)

/-- The result of `archive_multi_service`, with the list of adapters that
were actually invoked (in invocation order) recorded alongside the
returned triple. -/
structure ChainResult where
  ok : Bool
  service : String
  result : Option String
  invoked : List String
deriving DecidableEq

/-- `archive_multi_service(url, instance)` from `archiver.py`.  Each
adapter call is abstracted by the pair the corresponding `archive_*`
function returns: a status and an optional result URL.  The control flow
(early return on the first status 200, otherwise a pipe-joined
`tag:status` diagnostic) is the source's. -/
def archive_multi_service (wb ga at_ : PyStatus × Option String) : ChainResult :=
  if wb.1 = .code 200 then ⟨true, "wayback", wb.2, ["wayback"]⟩
  else if ga.1 = .code 200 then ⟨true, "ghostarchive", ga.2, ["wayback", "ghostarchive"]⟩
  else if at_.1 = .code 200 then
    ⟨true, "archive.today", at_.2, ["wayback", "ghostarchive", "archive.today"]⟩
  else
    ⟨false, "all_failed",
      some ("WB:" ++ statusStr wb.1 ++ "|GA:" ++ statusStr ga.1 ++ "|AT:" ++ statusStr at_.1),
      ["wayback", "ghostarchive", "archive.today"]⟩

/-- What one call to an archive adapter did: the value returned, how many
HTTP requests were issued, and the backoff sleeps performed (seconds). -/
structure AttemptTrace where
  result : PyStatus
  requests : Nat
  sleeps : List ℚ
deriving DecidableEq

/-- `archive_wayback(url, instance)` from `archiver.py`: issues exactly one
request and classifies the outcome; there is no retry loop.  `net` is the
outcome of that single request. -/
def archive_wayback (url inst : String) (net : NetOutcome) : AttemptTrace × Option String × String :=
  let target := if inst = "reddit.com" then url else convert_to_redlib url inst
  match net with
  | .status n u =>
    if n = 200 then (⟨.code 200, 1, []⟩, some u, target)
    else (⟨.code n, 1, []⟩, none, target)
  | .timeout => (⟨.msg "Timeout", 1, []⟩, none, target)
  | .connError m => (⟨.msg ("Error: " ++ (m.take 50)), 1, []⟩, none, target)
  | .exc m => (⟨.msg ("Error: " ++ (m.take 50)), 1, []⟩, none, target)

/-- The retry loop of `archive(url, retries)` from `archiver_fixed.py`,
starting at attempt `a` with `rem` loop iterations left (`rem` equals
`retries - a` at the top call).  `net k` is the outcome of the request made
on attempt `k` and `jit k` the value `random.uniform(0, 5)` drawn there. -/
def archiveGo (net : Nat → NetOutcome) (jit : Nat → ℚ) (retries : Nat) :
    Nat → Nat → AttemptTrace
  | _, 0 => ⟨.msg "Max retries exceeded", 0, []⟩
  | a, rem + 1 =>
    match net a with
    | .status n _ =>
      if n = 429 then
        if a < retries - 1 then
          ⟨(archiveGo net jit retries (a + 1) rem).result,
           (archiveGo net jit retries (a + 1) rem).requests + 1,
           ((2 ^ a : ℚ) * 10 + jit a) :: (archiveGo net jit retries (a + 1) rem).sleeps⟩
        else ⟨.code 429, 1, []⟩
      else ⟨.code n, 1, []⟩
    | .timeout =>
      if a < retries - 1 then
        ⟨(archiveGo net jit retries (a + 1) rem).result,
         (archiveGo net jit retries (a + 1) rem).requests + 1,
         ((10 : ℚ) + a * 5) :: (archiveGo net jit retries (a + 1) rem).sleeps⟩
      else ⟨.msg "Timeout", 1, []⟩
    | .connError _ =>
      if a < retries - 1 then
        ⟨(archiveGo net jit retries (a + 1) rem).result,
         (archiveGo net jit retries (a + 1) rem).requests + 1,
         ((10 : ℚ) + a * 5) :: (archiveGo net jit retries (a + 1) rem).sleeps⟩
      else ⟨.msg "Connection Error", 1, []⟩
    | .exc m =>
      if a < retries - 1 then
        ⟨(archiveGo net jit retries (a + 1) rem).result,
         (archiveGo net jit retries (a + 1) rem).requests + 1,
         ((10 : ℚ) + a * 5) :: (archiveGo net jit retries (a + 1) rem).sleeps⟩
      else ⟨.msg ("Error: " ++ (m.take 100)), 1, []⟩

/-- `archive(url, retries)` from `archiver_fixed.py` (the url only feeds
the request target, which the oracle abstracts). -/
def archive (net : Nat → NetOutcome) (jit : Nat → ℚ) (retries : Nat) : AttemptTrace :=
  archiveGo net jit retries 0 retries

/-- What a run can see of the seen-file on disk. -/
inductive FileRead where
  | absent
  | content (lines : List String)
  | ioError (msg : String)
deriving DecidableEq

/-- The shared per-line parse loop of `load_seen` (both files): strip the
line, skip empty lines, take field 2 of pipe-delimited lines, otherwise
take the whole line. -/
def parseSeenLines : List String → List String
  | [] => []
  | l :: rest =>
    let s := stripL l.data
    if s.isEmpty then parseSeenLines rest
    else if s.contains '|' then
      match splitPipe s with
      | _ :: u :: _ => String.mk u :: parseSeenLines rest
      | _ => parseSeenLines rest
    else String.mk s :: parseSeenLines rest

/-- The trim-to-last-N step of `load_seen`: keep the most recent `maxE`
lines when the file exceeds that size (Python `lines[-maxE:]`). -/
def trimLines (maxE : Nat) (lines : List String) : List String :=
  if maxE < lines.length then lines.drop (lines.length - maxE) else lines

end Backuper

namespace Backuper.A

/-- Constants of `archiver.py`. -/
def MAX_POSTS_PER_RUN : Nat := 5
def MAX_SEEN_ENTRIES : Nat := 5000
def CIRCUIT_BREAKER_THRESHOLD : Nat := 5
def MAX_RETRIES : Nat := 3

/-- `validate_subreddit()` from `archiver.py`:
`re.match(r'^[a-zA-Z0-9_]+$', s)`.  Python's `$` also matches just before
one final newline, so a single trailing `'\n'` is tolerated. -/
def validate_subreddit (s : String) : Bool :=
  let body := if s.data.getLast? = some '\n' then s.data.dropLast else s.data
  !body.isEmpty && body.all (fun c => c.isAlphanum || c = '_')

/-- `load_seen()` from `archiver.py`: a missing file or any I/O error
yields the empty set (the body is wrapped in `try/except`). -/
def load_seen : FileRead → List String
  | .absent => []
  | .ioError _ => []
  | .content lines => parseSeenLines (trimLines MAX_SEEN_ENTRIES lines)

/-- The line `append_seen(original_url, archived_url, service)` writes. -/
def seenLine (ts u au svc : String) : String :=
  ts ++ "|" ++ u ++ "|" ++ au ++ "|" ++ svc

/-- The triple returned by one `archive_multi_service` call, as consumed by
`main` (on failure `link` carries the joined diagnostics). -/
structure AMSResult where
  ok : Bool
  service : String
  link : String
deriving DecidableEq

/-- The state threaded through the `for entry in entries` loop of `main`. -/
structure RunState where
  seen : List String
  attempted : List String
  appends : List (String × String × String)
  failures : List (String × String)
  new_count : Nat
  consecutive_failures : Nat
  stoppedQuota : Bool
  stoppedBreaker : Bool
deriving DecidableEq

def initState (seen0 : List String) : RunState :=
  ⟨seen0, [], [], [], 0, 0, false, false⟩

/-- The per-entry loop of `main()` in `archiver.py`.  `arch k` is the
result of the `k`-th `archive_multi_service` call of the run.  `attempted`
records the canonical URLs passed to `archive_multi_service`, in order. -/
def processEntries (arch : Nat → AMSResult) : List String → RunState → RunState
  | [], st => st
  | e :: rest, st =>
    let su := convert_to_standard e
    if su ∈ st.seen then processEntries arch rest st
    else if MAX_POSTS_PER_RUN ≤ st.new_count then { st with stoppedQuota := true }
    else if CIRCUIT_BREAKER_THRESHOLD ≤ st.consecutive_failures then
      { st with stoppedBreaker := true }
    else
      if (arch st.attempted.length).ok then
        processEntries arch rest
          { st with attempted := st.attempted ++ [su],
                    appends := st.appends ++
                      [(su, (arch st.attempted.length).link,
                        (arch st.attempted.length).service)],
                    seen := su :: st.seen,
                    new_count := st.new_count + 1,
                    consecutive_failures := 0 }
      else
        processEntries arch rest
          { st with attempted := st.attempted ++ [su],
                    failures := st.failures ++
                      [(su, (arch st.attempted.length).link)],
                    new_count := st.new_count + 1,
                    consecutive_failures := st.consecutive_failures + 1 }

def run (arch : Nat → AMSResult) (entries seen0 : List String) : RunState :=
  processEntries arch entries (initState seen0)

/-- Number of feed entries whose canonical URL is not in the ledger. -/
def countUnseen (entries seen : List String) : Nat :=
  (entries.filter (fun e => decide (convert_to_standard e ∉ seen))).length

structure MainResult where
  exitCode : Nat
  state : RunState
deriving DecidableEq

/-- `main()` from `archiver.py`.  `fetch` is what `fetch_feed()` produced:
`none` models total failure of every Redlib instance and the JSON
fallback. -/
def main (subreddit : String) (ledger : FileRead)
    (fetch : Option (List String × String)) (arch : Nat → AMSResult) : MainResult :=
  if !(validate_subreddit subreddit) then ⟨1, initState []⟩
  else
    let seen := load_seen ledger
    match fetch with
    | none => ⟨1, initState seen⟩
    | some (entries, _) =>
      if entries.isEmpty then ⟨1, initState seen⟩
      else ⟨0, processEntries arch entries (initState seen)⟩

end Backuper.A

namespace Backuper.F

/-- Constants of `archiver_fixed.py`. -/
def MAX_RETRIES : Nat := 3
def MAX_SEEN_ENTRIES : Nat := 10000

/-- `validate_subreddit()` from `archiver_fixed.py`:
`re.match(r'^[a-zA-Z0-9_]{3,21}$', s)`.  Python's `$` also matches just
before one final newline, so a single trailing `'\n'` is tolerated; the
3..21 length bound applies to the body before that newline. -/
def validate_subreddit (s : String) : Bool :=
  let body := if s.data.getLast? = some '\n' then s.data.dropLast else s.data
  decide (3 ≤ body.length) && decide (body.length ≤ 21) &&
    body.all (fun c => c.isAlphanum || c = '_')

/-- `load_seen()` from `archiver_fixed.py`: no `try/except`, so a read
error propagates as an exception (modelled by `Except.error`). -/
def load_seen : FileRead → Except String (List String)
  | .absent => .ok []
  | .ioError m => .error m
  | .content lines => .ok (parseSeenLines (trimLines MAX_SEEN_ENTRIES lines))

/-- The line `append_seen(post_url)` writes. -/
def seenLine (ts u : String) : String :=
  ts ++ "|" ++ u

/-- The state threaded through the `for entry in feed.entries` loop. -/
structure RunState where
  seen : List String
  attempted : List String
  appends : List String
  failures : List (String × PyStatus)
  new_count : Nat
  failed_count : Nat
  skipped_count : Nat
deriving DecidableEq

def initState (seen0 : List String) : RunState :=
  ⟨seen0, [], [], [], 0, 0, 0⟩

/-- The per-entry loop of `main()` in `archiver_fixed.py`.  `arch k` is the
status returned by the `k`-th `archive` call of the run.  Note: the raw
entry link is checked against the ledger; there is no canonicalization,
no per-run quota and no circuit breaker in this file. -/
def processEntries (arch : Nat → PyStatus) : List String → RunState → RunState
  | [], st => st
  | e :: rest, st =>
    if e ∈ st.seen then
      processEntries arch rest { st with skipped_count := st.skipped_count + 1 }
    else
      if arch st.attempted.length = .code 200 then
        processEntries arch rest
          { st with attempted := st.attempted ++ [e],
                    appends := st.appends ++ [e],
                    seen := e :: st.seen,
                    new_count := st.new_count + 1 }
      else
        processEntries arch rest
          { st with attempted := st.attempted ++ [e],
                    failures := st.failures ++ [(e, arch st.attempted.length)],
                    failed_count := st.failed_count + 1 }

def run (arch : Nat → PyStatus) (entries seen0 : List String) : RunState :=
  processEntries arch entries (initState seen0)

/-- Number of feed entries not in the ledger (raw-URL comparison). -/
def countUnseen (entries seen : List String) : Nat :=
  (entries.filter (fun e => decide (e ∉ seen))).length

/-- What the feed-fetch phase of `main()` produced: an HTTP response whose
body parses to `entries`, or an exception during fetch/parse. -/
inductive FetchF where
  | resp (status : Nat) (entries : List String)
  | exc (msg : String)
deriving DecidableEq

structure MainResult where
  exitCode : Nat
  state : RunState
deriving DecidableEq

/-- `main()` from `archiver_fixed.py`.  An uncaught exception from
`load_seen` terminates the process with a nonzero exit code. -/
def main (subreddit : String) (ledger : FileRead) (fetch : FetchF)
    (arch : Nat → PyStatus) : MainResult :=
  if !(validate_subreddit subreddit) then ⟨1, initState []⟩
  else
    match load_seen ledger with
    | .error _ => ⟨1, initState []⟩
    | .ok seen =>
      match fetch with
      | .exc _ => ⟨1, initState seen⟩
      | .resp status entries =>
        if status ≠ 200 then ⟨1, initState seen⟩
        else if entries.isEmpty then ⟨0, initState seen⟩
        else ⟨0, processEntries arch entries (initState seen)⟩

end Backuper.F

namespace Backuper

theorem replAux_fuel (pat rep : List Char) (hpat : pat ≠ []) :
    ∀ f₁ f₂ s, s.length ≤ f₁ → s.length ≤ f₂ →
      replAux pat rep f₁ s = replAux pat rep f₂ s := by
  intro f₁
  induction f₁ with
  | zero =>
    intro f₂ s hs₁ _
    have hs : s = [] := List.eq_nil_of_length_eq_zero (Nat.le_zero.mp hs₁)
    subst hs
    cases f₂ <;> rfl
  | succ f ih =>
    intro f₂ s hs₁ hs₂
    cases s with
    | nil => cases f₂ <;> rfl
    | cons c cs =>
      cases f₂ with
      | zero => simp at hs₂
      | succ g =>
        have hlp : 1 ≤ pat.length := by
          cases pat with
          | nil => exact absurd rfl hpat
          | cons a as => simp
        simp only [replAux]
        by_cases hp : pat.isPrefixOf (c :: cs)
        · rw [if_pos hp, if_pos hp]
          have hd : ((c :: cs).drop pat.length).length ≤ f := by
            simp only [List.length_drop, List.length_cons] at *
            omega
          have hd2 : ((c :: cs).drop pat.length).length ≤ g := by
            simp only [List.length_drop, List.length_cons] at *
            omega
          rw [ih g _ hd hd2]
        · rw [if_neg hp, if_neg hp]
          have h1 : cs.length ≤ f := by simp only [List.length_cons] at hs₁; omega
          have h2 : cs.length ≤ g := by simp only [List.length_cons] at hs₂; omega
          rw [ih g cs h1 h2]

theorem replaceL_nil (pat rep : List Char) : replaceL [] pat rep = [] := by
  cases pat <;> rfl

theorem replaceL_eq_replAux (pat rep s : List Char) (hpat : pat ≠ []) :
    replaceL s pat rep = replAux pat rep s.length s := by
  cases pat with
  | nil => exact absurd rfl hpat
  | cons a as => rfl

theorem replaceL_pos (pat rep s : List Char) (hpat : pat ≠ [])
    (h : pat.isPrefixOf s) :
    replaceL s pat rep = rep ++ replaceL (s.drop pat.length) pat rep := by
  cases pat with
  | nil => exact absurd rfl hpat
  | cons a as =>
    cases s with
    | nil => simp [List.isPrefixOf] at h
    | cons c cs =>
      show replAux (a :: as) rep (c :: cs).length (c :: cs) = _
      simp only [List.length_cons, replAux, if_pos h]
      congr 1
      rw [replaceL_eq_replAux _ _ _ hpat]
      apply replAux_fuel _ _ hpat
      · simp only [List.length_drop, List.length_cons]
        omega
      · exact le_rfl

theorem replaceL_neg (pat rep : List Char) (c : Char) (cs : List Char)
    (hpat : pat ≠ []) (h : ¬ pat.isPrefixOf (c :: cs)) :
    replaceL (c :: cs) pat rep = c :: replaceL cs pat rep := by
  cases pat with
  | nil => exact absurd rfl hpat
  | cons a as =>
    show replAux (a :: as) rep (c :: cs).length (c :: cs) = _
    simp only [List.length_cons, replAux, if_neg h]
    congr 1

theorem prefix_gives_occurrence {pat s : List Char} (h : pat <+: s) : pat <:+: s := by
  obtain ⟨r, hr⟩ := h
  exact ⟨[], r, by simpa⟩

theorem replaceL_no_occurrence (pat rep s : List Char) (hpat : pat ≠ [])
    (h : ¬ pat <:+: s) : replaceL s pat rep = s := by
  induction s with
  | nil => exact replaceL_nil pat rep
  | cons c cs ih =>
    have hnp : ¬ pat.isPrefixOf (c :: cs) := by
      intro hp
      exact h (prefix_gives_occurrence ( List.isPrefixOf_iff_prefix.mp hp))
    rw [replaceL_neg pat rep c cs hpat hnp,
      ih (fun hi => h (List.infix_cons hi))]

theorem pushCond_spec (x pat p : List Char) (hx : pushCond x pat = true)
    (hp : '.' ∉ p) :
    ∀ t, t <:+ x → pat <+: (t ++ p) → pat <+: t := by
  intro t ht hpre
  by_cases hlen : pat.length ≤ t.length
  · exact List.prefix_of_prefix_length_le hpre (List.prefix_append t p) hlen
  · have htp : t <+: pat := by
      refine List.prefix_of_prefix_length_le (List.prefix_append t p) hpre ?_
      omega
    have hrem : pat.drop t.length <+: p := by
      obtain ⟨r, hr⟩ := htp
      obtain ⟨q, hq⟩ := hpre
      have hrd : pat.drop t.length = r := by
        rw [← hr, List.drop_left]
      rw [hrd]
      refine ⟨q, ?_⟩
      have : t ++ (r ++ q) = t ++ p := by
        rw [← List.append_assoc, hr, hq]
      exact List.append_cancel_left this
    have hb := List.all_eq_true.mp hx t ((List.mem_tails t x).mpr ht)
    simp only [Bool.or_eq_true, decide_eq_true_eq, Bool.not_eq_true'] at hb
    rcases hb with (hb | hb) | hb
    · omega
    · rw [ List.isPrefixOf_iff_prefix.symm.mp htp] at hb
      cases hb
    · have : ('.' : Char) ∈ pat.drop t.length := by
        rw [List.contains_iff_exists_mem_beq] at hb
        obtain ⟨a, ha, hab⟩ := hb
        exact (eq_of_beq hab) ▸ ha
      exact absurd (hrem.subset this) hp

theorem replaceL_append_free (pat rep p : List Char) (hpat : pat ≠ [])
    (hinf : ¬ pat <:+: p) :
    ∀ n x, x.length ≤ n → (∀ t, t <:+ x → pat <+: (t ++ p) → pat <+: t) →
      replaceL (x ++ p) pat rep = replaceL x pat rep ++ p := by
  intro n
  induction n with
  | zero =>
    intro x hn _
    have hx : x = [] := List.eq_nil_of_length_eq_zero (Nat.le_zero.mp hn)
    subst hx
    rw [List.nil_append, replaceL_nil, List.nil_append,
      replaceL_no_occurrence pat rep p hpat hinf]
  | succ m ih =>
    intro x hn hcond
    cases x with
    | nil =>
      rw [List.nil_append, replaceL_nil, List.nil_append,
        replaceL_no_occurrence pat rep p hpat hinf]
    | cons c cs =>
      by_cases hp : pat.isPrefixOf ((c :: cs) ++ p)
      · have hpx : pat <+: (c :: cs) :=
          hcond (c :: cs) (List.suffix_refl _) ( List.isPrefixOf_iff_prefix.mp hp)
        have hplen : pat.length ≤ (c :: cs).length := hpx.length_le
        rw [replaceL_pos pat rep _ hpat hp,
          replaceL_pos pat rep _ hpat ( List.isPrefixOf_iff_prefix.mpr hpx)]
        rw [List.drop_append_of_le_length hplen]
        rw [ih ((c :: cs).drop pat.length) ?_ ?_, List.append_assoc]
        · have hlp : 1 ≤ pat.length := by
            cases pat with
            | nil => exact absurd rfl hpat
            | cons a as => simp
          simp only [List.length_drop, List.length_cons] at *
          omega
        · intro t ht hpt
          exact hcond t (ht.trans (List.drop_suffix _ _)) hpt
      · have hpx : ¬ pat.isPrefixOf (c :: cs) := by
          intro h'
          apply hp
          rw [ List.isPrefixOf_iff_prefix] at h' ⊢
          exact h'.trans (List.prefix_append _ _)
        rw [List.cons_append, replaceL_neg pat rep _ _ hpat (by rwa [← List.cons_append]),
          replaceL_neg pat rep _ _ hpat hpx, List.cons_append]
        congr 1
        apply ih cs ?_ ?_
        · simp only [List.length_cons] at hn
          omega
        · intro t ht hpt
          exact hcond t (ht.trans (List.suffix_cons c cs)) hpt

theorem containsSub_iff (pat s : List Char) :
    containsSub pat s = true ↔ pat <:+: s := by
  unfold containsSub
  rw [List.any_eq_true]
  constructor
  · rintro ⟨t, htmem, hpre⟩
    exact List.infix_iff_prefix_suffix.mpr
      ⟨t, List.isPrefixOf_iff_prefix.mp hpre, (List.mem_tails t s).mp htmem⟩
  · intro h
    obtain ⟨t, h1, h2⟩ := List.infix_iff_prefix_suffix.mp h
    exact ⟨t, (List.mem_tails t s).mpr h2, List.isPrefixOf_iff_prefix.mpr h1⟩

theorem occurrence_append_free (pat x p : List Char) (hdotpat : ('.' : Char) ∈ pat)
    (hp : '.' ∉ p) (hx : pushCond x pat = true) :
    pat <:+: (x ++ p) ↔ pat <:+: x := by
  constructor
  · intro h
    obtain ⟨t, hpre, hsuf⟩ := List.infix_iff_prefix_suffix.mp h
    by_cases hl : t.length ≤ p.length
    · have htin : t <:+ p :=
        List.suffix_of_suffix_length_le hsuf (List.suffix_append x p) hl
      have : pat <:+: p := List.infix_iff_prefix_suffix.mpr ⟨t, hpre, htin⟩
      exact absurd (this.subset hdotpat) hp
    · obtain ⟨a, ha⟩ := hsuf
      have hlen : a.length + t.length = x.length + p.length := by
        have := congrArg List.length ha
        simpa using this
      have hax : a <+: x := by
        refine List.prefix_of_prefix_length_le ⟨t, ha⟩ (List.prefix_append x p) ?_
        omega
      obtain ⟨m, hm⟩ := hax
      have ht : t = m ++ p := by
        have hcat : a ++ t = a ++ (m ++ p) := by
          rw [ha, ← hm, List.append_assoc]
        exact List.append_cancel_left hcat
      have hmx : m <:+ x := ⟨a, hm⟩
      have hpm : pat <+: m := pushCond_spec x pat p hx hp m hmx (ht ▸ hpre)
      exact List.infix_iff_prefix_suffix.mpr ⟨m, hpm, hmx⟩
  · intro h
    exact h.trans ⟨[], p, by simp⟩

theorem containsSub_append_free (i x p : List Char)
    (hdot : i.contains '.' = true) (hp : '.' ∉ p) (hx : pushCond x i = true) :
    containsSub i (x ++ p) = containsSub i x := by
  have hdm : ('.' : Char) ∈ i := by
    rw [List.contains_iff_exists_mem_beq] at hdot
    obtain ⟨a, ha, hab⟩ := hdot
    exact (eq_of_beq hab) ▸ ha
  have hiff := occurrence_append_free i x p hdm hp hx
  by_cases h1 : containsSub i x = true
  · rw [h1]
    exact (containsSub_iff i (x ++ p)).mpr (hiff.mpr ((containsSub_iff i x).mp h1))
  · rw [Bool.eq_false_iff.mpr h1, ← Bool.not_eq_true]
    intro h2
    exact h1 ((containsSub_iff i x).mpr (hiff.mp ((containsSub_iff i (x ++ p)).mp h2)))

theorem dot_no_occurrence {pat p : List Char} (hdot : pat.contains '.' = true)
    (hp : '.' ∉ p) : ¬ pat <:+: p := by
  intro h
  apply hp
  apply h.subset
  rw [List.contains_iff_exists_mem_beq] at hdot
  obtain ⟨a, ha, hab⟩ := hdot
  exact (eq_of_beq hab) ▸ ha

theorem pat_ne_nil_of_isEmpty {pat : List Char} (h : (!pat.isEmpty) = true) :
    pat ≠ [] := by
  cases pat with
  | nil => simp at h
  | cons a as => simp

/-- One `replace` step pushes an untouched safe tail out, Bool-condition form. -/
theorem replaceL_push (x pat rep p : List Char) (hne : (!pat.isEmpty) = true)
    (hdot : pat.contains '.' = true) (hpc : pushCond x pat = true)
    (hp : '.' ∉ p) :
    replaceL (x ++ p) pat rep = replaceL x pat rep ++ p := by
  exact replaceL_append_free pat rep p (pat_ne_nil_of_isEmpty hne)
    (dot_no_occurrence hdot hp) x.length x le_rfl (pushCond_spec x pat p hpc hp)

theorem firstMatchL_push (is : List (List Char)) (x p : List Char)
    (hc : fmCond is x = true) (hp : '.' ∉ p) :
    firstMatchL is (x ++ p) = firstMatchL is x ++ p := by
  induction is with
  | nil => rfl
  | cons i rest ih =>
    have hall := List.all_eq_true.mp hc
    have hi := hall i (List.mem_cons_self i rest)
    simp only [Bool.and_eq_true] at hi
    obtain ⟨⟨h1, h2⟩, h3⟩ := hi
    show (if containsSub i (x ++ p) then replaceL (x ++ p) i redditL
          else firstMatchL rest (x ++ p)) = _
    rw [containsSub_append_free i x p h2 hp h3]
    by_cases hcc : containsSub i x = true
    · rw [if_pos hcc]
      show _ = (if containsSub i x then replaceL x i redditL
                else firstMatchL rest x) ++ p
      rw [if_pos hcc]
      exact replaceL_push x i redditL p h1 h2 h3 hp
    · rw [if_neg hcc]
      show _ = (if containsSub i x then replaceL x i redditL
                else firstMatchL rest x) ++ p
      rw [if_neg hcc]
      apply ih
      apply List.all_eq_true.mpr
      intro j hj
      exact hall j (List.mem_cons_of_mem i hj)

theorem stdFoldL_push (is : List (List Char)) :
    ∀ x p, foldCond is x = true → '.' ∉ p →
      stdFoldL is (x ++ p) = stdFoldL is x ++ p := by
  induction is with
  | nil => intro x p _ _; rfl
  | cons i rest ih =>
    intro x p hc hp
    simp only [foldCond, Bool.and_eq_true] at hc
    obtain ⟨⟨⟨h1, h2⟩, h3⟩, h4⟩ := hc
    show stdFoldL rest (replaceL (x ++ p) i wwwRedditL) = stdFoldL rest (replaceL x i wwwRedditL) ++ p
    rw [replaceL_push x i wwwRedditL p h1 h2 h3 hp]
    exact ih (replaceL x i wwwRedditL) p h4 hp

theorem convStdL_push (x p : List Char) (hc : stdCond x = true) (hp : '.' ∉ p) :
    convStdL (x ++ p) = convStdL x ++ p := by
  simp only [stdCond, Bool.and_eq_true] at hc
  obtain ⟨⟨⟨h1, h2⟩, h3⟩, h4⟩ := hc
  unfold convStdL
  rw [stdFoldL_push instL x p h1 hp,
    replaceL_push _ oldRedditL wwwRedditL p (by decide) (by decide) h2 hp,
    replaceL_push _ redditL wwwRedditL p (by decide) (by decide) h3 hp,
    replaceL_push _ wwwwwwL wwwL p (by decide) (by decide) h4 hp]

theorem convRedlibL_push (x p inst : List Char) (hc : redCond x = true)
    (hp : '.' ∉ p) :
    convRedlibL (x ++ p) inst = convRedlibL x inst ++ p := by
  simp only [redCond, Bool.and_eq_true] at hc
  obtain ⟨⟨⟨h1, h2⟩, h3⟩, h4⟩ := hc
  unfold convRedlibL
  rw [replaceL_push x wwwRedditL redditL p (by decide) (by decide) h1 hp,
    replaceL_push _ oldRedditL redditL p (by decide) (by decide) h2 hp,
    firstMatchL_push instL _ p h3 hp,
    replaceL_push _ redditL inst p (by decide) (by decide) h4 hp]

theorem safe_no_dot {p : List Char} (hs : ∀ c ∈ p, safePathChar c = true) :
    '.' ∉ p := by
  intro hmem
  exact absurd (hs '.' hmem) (by decide)

set_option maxHeartbeats 4000000 in
theorem host_redCond : ∀ h ∈ feedHosts, redCond (hpL h) = true := by decide

set_option maxHeartbeats 4000000 in
theorem host_stdCond : ∀ h ∈ feedHosts, stdCond (hpL h) = true := by decide

set_option maxHeartbeats 4000000 in
theorem host_stdVal :
    ∀ h ∈ feedHosts, convStdL (hpL h) = "https://www.reddit.com/".data := by
  decide

set_option maxHeartbeats 4000000 in
theorem host_redlibCore :
    ∀ h ∈ feedHosts,
      firstMatchL instL (replaceL (replaceL (hpL h) wwwRedditL redditL) oldRedditL redditL) =
        "https://reddit.com/".data := by
  decide

theorem inst_mem_feedHosts : ∀ i ∈ REDLIB_INSTANCES, i ∈ feedHosts := by decide

set_option maxHeartbeats 4000000 in
theorem inst_redlibVal :
    ∀ i ∈ REDLIB_INSTANCES,
      replaceL "https://reddit.com/".data redditL i.data = hpL i := by
  decide

theorem convRedlibL_host (h i : String) (hh : h ∈ feedHosts)
    (hi : i ∈ REDLIB_INSTANCES) : convRedlibL (hpL h) i.data = hpL i := by
  unfold convRedlibL
  rw [host_redlibCore h hh]
  exact inst_redlibVal i hi

/-- C7: for every well-formed feed URL `u` and every Redlib instance `i`,
`convert_to_standard (convert_to_redlib u i) = convert_to_standard u`:
the reverse transform applied to the forward transform recovers the
canonical URL. -/
theorem C7_transform_roundtrip (u i : String) (hu : WellFormedFeedURL u)
    (hi : i ∈ REDLIB_INSTANCES) :
    convert_to_standard (convert_to_redlib u i) = convert_to_standard u := by
  obtain ⟨h, p, hh, hud, hsafe⟩ := hu
  have hp : '.' ∉ p := safe_no_dot hsafe
  unfold convert_to_standard convert_to_redlib
  apply congrArg String.mk
  rw [hud, convRedlibL_push (hpL h) p i.data (host_redCond h hh) hp,
    convRedlibL_host h i hh hi,
    convStdL_push (hpL i) p (host_stdCond i (inst_mem_feedHosts i hi)) hp,
    convStdL_push (hpL h) p (host_stdCond h hh) hp,
    host_stdVal i (inst_mem_feedHosts i hi), host_stdVal h hh]

/-- Witness for C7 at a concrete well-formed URL and instance. -/
theorem C7_transform_roundtrip_witness :
    convert_to_standard
        (convert_to_redlib "https://www.reddit.com/r/test/comments/abc" "redlib.drgns.space") =
      convert_to_standard "https://www.reddit.com/r/test/comments/abc" :=
  C7_transform_roundtrip "https://www.reddit.com/r/test/comments/abc"
    "redlib.drgns.space"
    ⟨"www.reddit.com", "r/test/comments/abc".data, by decide, by decide, by decide⟩
    (by decide)

/-- C8 counterexample: `convert_to_redlib` is not idempotent on arbitrary
URLs.  This URL mentions two Redlib instances; the first pass rewrites only
the instance that comes first in `REDLIB_INSTANCES` (the loop breaks), so a
second pass still finds and rewrites the leftover instance. -/
theorem C8_idempotence_counterexample :
    convert_to_redlib
        (convert_to_redlib "https://redlib.nohost.network/a/redlib.privacydev.net" "rl.bloat.cat")
        "rl.bloat.cat" ≠
      convert_to_redlib "https://redlib.nohost.network/a/redlib.privacydev.net" "rl.bloat.cat" := by
  decide

/-- C8 amended: on well-formed feed URLs (single known host, safe path)
`convert_to_redlib (·, i)` is idempotent for every instance `i`. -/
theorem C8_transform_idempotent_wellformed (u i : String)
    (hu : WellFormedFeedURL u) (hi : i ∈ REDLIB_INSTANCES) :
    convert_to_redlib (convert_to_redlib u i) i = convert_to_redlib u i := by
  obtain ⟨h, p, hh, hud, hsafe⟩ := hu
  have hp : '.' ∉ p := safe_no_dot hsafe
  unfold convert_to_redlib
  apply congrArg String.mk
  rw [hud, convRedlibL_push (hpL h) p i.data (host_redCond h hh) hp,
    convRedlibL_host h i hh hi,
    convRedlibL_push (hpL i) p i.data (host_redCond i (inst_mem_feedHosts i hi)) hp,
    convRedlibL_host i i (inst_mem_feedHosts i hi) hi]

/-- Witness for the amended C8 at a concrete well-formed URL and instance. -/
theorem C8_transform_idempotent_wellformed_witness :
    convert_to_redlib
        (convert_to_redlib "https://old.reddit.com/r/test/comments/xyz" "rl.bloat.cat")
        "rl.bloat.cat" =
      convert_to_redlib "https://old.reddit.com/r/test/comments/xyz" "rl.bloat.cat" :=
  C8_transform_idempotent_wellformed "https://old.reddit.com/r/test/comments/xyz"
    "rl.bloat.cat"
    ⟨"old.reddit.com", "r/test/comments/xyz".data, by decide, by decide, by decide⟩
    (by decide)

/-- C5: `archive_multi_service` tries Wayback, GhostArchive, Archive.today
in that fixed order, returns success with the first adapter whose status is
200 without invoking the later adapters, and on total failure returns the
pipe-joined `tag:status` diagnostics in chain order. -/
theorem C5_fallback_chain (wb ga at_ : PyStatus × Option String) :
    (wb.1 = .code 200 →
      archive_multi_service wb ga at_ = ⟨true, "wayback", wb.2, ["wayback"]⟩) ∧
    (wb.1 ≠ .code 200 → ga.1 = .code 200 →
      archive_multi_service wb ga at_ =
        ⟨true, "ghostarchive", ga.2, ["wayback", "ghostarchive"]⟩) ∧
    (wb.1 ≠ .code 200 → ga.1 ≠ .code 200 → at_.1 = .code 200 →
      archive_multi_service wb ga at_ =
        ⟨true, "archive.today", at_.2, ["wayback", "ghostarchive", "archive.today"]⟩) ∧
    (wb.1 ≠ .code 200 → ga.1 ≠ .code 200 → at_.1 ≠ .code 200 →
      archive_multi_service wb ga at_ =
        ⟨false, "all_failed",
          some ("WB:" ++ statusStr wb.1 ++ "|GA:" ++ statusStr ga.1 ++ "|AT:" ++ statusStr at_.1),
          ["wayback", "ghostarchive", "archive.today"]⟩) := by
  refine ⟨?_, ?_, ?_, ?_⟩
  · intro h1
    simp [archive_multi_service, h1]
  · intro h1 h2
    simp [archive_multi_service, h1, h2]
  · intro h1 h2 h3
    simp [archive_multi_service, h1, h2, h3]
  · intro h1 h2 h3
    simp [archive_multi_service, h1, h2, h3]

/-- Witness for C5: every adapter returns 523, so the chain fails with the
joined diagnostics. -/
theorem C5_fallback_chain_witness :
    archive_multi_service (.code 523, none) (.code 523, none) (.code 523, none) =
      ⟨false, "all_failed", some "WB:523|GA:523|AT:523",
        ["wayback", "ghostarchive", "archive.today"]⟩ :=
  ((C5_fallback_chain (.code 523, none) (.code 523, none) (.code 523, none)).2.2.2
    (by decide) (by decide) (by decide)).trans (by decide)

/-- C9 counterexample: in `archiver_fixed.py` an I/O error while reading
the seen file is not turned into an empty ledger; `load_seen` has no
`try/except`, so the exception propagates and aborts the run. -/
theorem C9_failopen_counterexample :
    F.load_seen (.ioError "disk failure") ≠ .ok [] ∧
    F.load_seen (.ioError "disk failure") = .error "disk failure" := by
  exact ⟨by simp [F.load_seen], rfl⟩

/-- C9 amended: `archiver.py`'s `load_seen` is fail-open (any read error
yields the empty set), while `archiver_fixed.py`'s `load_seen` propagates
the error, aborting the run. -/
theorem C9_failopen_amended (m : String) :
    A.load_seen (.ioError m) = [] ∧ F.load_seen (.ioError m) = .error m :=
  ⟨rfl, rfl⟩

theorem A_seen_skip_invariant (arch : Nat → A.AMSResult) (v : String) :
    ∀ entries st, v ∈ st.seen → v ∉ st.attempted →
      v ∈ (A.processEntries arch entries st).seen ∧
      v ∉ (A.processEntries arch entries st).attempted := by
  intro entries
  induction entries with
  | nil => intro st h1 h2; exact ⟨h1, h2⟩
  | cons e rest ih =>
    intro st h1 h2
    simp only [A.processEntries]
    by_cases hs : convert_to_standard e ∈ st.seen
    · rw [if_pos hs]
      exact ih st h1 h2
    · rw [if_neg hs]
      by_cases hq : A.MAX_POSTS_PER_RUN ≤ st.new_count
      · rw [if_pos hq]
        exact ⟨h1, h2⟩
      · rw [if_neg hq]
        by_cases hb : A.CIRCUIT_BREAKER_THRESHOLD ≤ st.consecutive_failures
        · rw [if_pos hb]
          exact ⟨h1, h2⟩
        · rw [if_neg hb]
          have hne : v ∉ [convert_to_standard e] := by
            intro hm
            exact hs ((List.mem_singleton.mp hm) ▸ h1)
          by_cases hok : (arch st.attempted.length).ok = true
          · rw [if_pos hok]
            refine ih _ (List.mem_cons_of_mem _ h1) ?_
            intro hmem
            rcases List.mem_append.mp hmem with h | h
            · exact h2 h
            · exact hne h
          · rw [if_neg hok]
            refine ih _ h1 ?_
            intro hmem
            rcases List.mem_append.mp hmem with h | h
            · exact h2 h
            · exact hne h

theorem F_seen_skip_invariant (arch : Nat → PyStatus) (v : String) :
    ∀ entries st, v ∈ st.seen → v ∉ st.attempted →
      v ∈ (F.processEntries arch entries st).seen ∧
      v ∉ (F.processEntries arch entries st).attempted := by
  intro entries
  induction entries with
  | nil => intro st h1 h2; exact ⟨h1, h2⟩
  | cons e rest ih =>
    intro st h1 h2
    simp only [F.processEntries]
    by_cases hs : e ∈ st.seen
    · rw [if_pos hs]
      exact ih _ h1 h2
    · rw [if_neg hs]
      have hne : v ∉ [e] := by
        intro hm
        exact hs ((List.mem_singleton.mp hm) ▸ h1)
      by_cases hok : arch st.attempted.length = .code 200
      · rw [if_pos hok]
        refine ih _ (List.mem_cons_of_mem _ h1) ?_
        intro hmem
        rcases List.mem_append.mp hmem with h | h
        · exact h2 h
        · exact hne h
      · rw [if_neg hok]
        refine ih _ h1 ?_
        intro hmem
        rcases List.mem_append.mp hmem with h | h
        · exact h2 h
        · exact hne h

/-- C1 counterexample: in `archiver_fixed.py`, an entry whose canonical
form (but not its raw form) is in the ledger is not skipped: the adapter
is invoked for it.  `archiver_fixed.py` compares the raw entry link
against the ledger without canonicalization. -/
theorem C1_dedup_counterexample :
    convert_to_standard "https://old.reddit.com/r/a" ∈
      (["https://www.reddit.com/r/a"] : List String) ∧
    (F.run (fun _ => .code 523) ["https://old.reddit.com/r/a"]
        ["https://www.reddit.com/r/a"]).attempted =
      ["https://old.reddit.com/r/a"] := by
  decide

/-- C1 amended: in `archiver.py` an entry whose canonical URL is in the
ledger is never passed to `archive_multi_service` (the attempted list
holds the canonical URLs submitted); in `archiver_fixed.py` the skip
applies to entries whose raw URL is in the ledger. -/
theorem C1_dedup_skip_amended (u : String) (entries seen0 : List String)
    (archA : Nat → A.AMSResult) (archF : Nat → PyStatus) :
    (convert_to_standard u ∈ seen0 →
      convert_to_standard u ∉ (A.run archA entries seen0).attempted) ∧
    (u ∈ seen0 → u ∉ (F.run archF entries seen0).attempted) := by
  constructor
  · intro hmem
    exact (A_seen_skip_invariant archA (convert_to_standard u) entries
      (A.initState seen0) hmem (by simp [A.initState])).2
  · intro hmem
    exact (F_seen_skip_invariant archF u entries
      (F.initState seen0) hmem (by simp [F.initState])).2

theorem A_countUnseen_cons_mem {e : String} {seen : List String}
    (rest : List String) (hs : convert_to_standard e ∈ seen) :
    A.countUnseen (e :: rest) seen = A.countUnseen rest seen := by
  simp [A.countUnseen, List.filter_cons, hs]

theorem A_countUnseen_cons_not_mem {e : String} {seen : List String}
    (rest : List String) (hs : convert_to_standard e ∉ seen) :
    A.countUnseen (e :: rest) seen = A.countUnseen rest seen + 1 := by
  simp [A.countUnseen, List.filter_cons, hs]

theorem A_allfail_count (arch : Nat → A.AMSResult)
    (hfail : ∀ k, (arch k).ok = false) :
    ∀ entries st, st.consecutive_failures = st.new_count →
      st.new_count ≤ A.MAX_POSTS_PER_RUN →
      (A.processEntries arch entries st).attempted.length =
          st.attempted.length +
            min (A.MAX_POSTS_PER_RUN - st.new_count) (A.countUnseen entries st.seen) ∧
      (A.processEntries arch entries st).appends = st.appends ∧
      (A.processEntries arch entries st).failures.length =
          st.failures.length +
            min (A.MAX_POSTS_PER_RUN - st.new_count) (A.countUnseen entries st.seen) ∧
      (A.processEntries arch entries st).seen = st.seen := by
  intro entries
  induction entries with
  | nil =>
    intro st _ _
    simp [A.processEntries, A.countUnseen]
  | cons e rest ih =>
    intro st hcf hnc
    simp only [A.processEntries]
    by_cases hs : convert_to_standard e ∈ st.seen
    · rw [if_pos hs, A_countUnseen_cons_mem rest hs]
      exact ih st hcf hnc
    · rw [if_neg hs, A_countUnseen_cons_not_mem rest hs]
      by_cases hq : A.MAX_POSTS_PER_RUN ≤ st.new_count
      · rw [if_pos hq]
        have h0 : A.MAX_POSTS_PER_RUN - st.new_count = 0 := by omega
        simp [h0]
      · rw [if_neg hq]
        have hb : ¬ (A.CIRCUIT_BREAKER_THRESHOLD ≤ st.consecutive_failures) := by
          simp only [A.MAX_POSTS_PER_RUN, A.CIRCUIT_BREAKER_THRESHOLD] at *
          omega
        rw [if_neg hb]
        have hok : ¬ ((arch st.attempted.length).ok = true) := by
          rw [hfail]
          simp
        rw [if_neg hok]
        obtain ⟨ha, hap, hf, hsn⟩ := ih
          { st with attempted := st.attempted ++ [convert_to_standard e],
                    failures := st.failures ++
                      [(convert_to_standard e, (arch st.attempted.length).link)],
                    new_count := st.new_count + 1,
                    consecutive_failures := st.consecutive_failures + 1 }
          (by show st.consecutive_failures + 1 = st.new_count + 1; omega)
          (by show st.new_count + 1 ≤ A.MAX_POSTS_PER_RUN; omega)
        refine ⟨?_, by simpa using hap, ?_, by simpa using hsn⟩
        · rw [ha]
          simp only [List.length_append, List.length_cons, List.length_nil]
          omega
        · rw [hf]
          simp only [List.length_append, List.length_cons, List.length_nil]
          omega

/-- C2 counterexample: the claim asserts that every all-services-failing
run writes exactly `CIRCUIT_BREAKER_THRESHOLD` failure records; a run over
a feed with a single unseen entry writes exactly one. -/
theorem C2_circuit_breaker_counterexample :
    (A.run (fun _ => ⟨false, "all_failed", "WB:523|GA:523|AT:523"⟩)
        ["https://www.reddit.com/r/a/1"] []).failures.length = 1 ∧
    A.CIRCUIT_BREAKER_THRESHOLD = 5 := by
  decide

/-- C2 amended: in an `archiver.py` run in which every
`archive_multi_service` call fails, at most `CIRCUIT_BREAKER_THRESHOLD`
unseen entries are processed before the loop stops, nothing is appended to
the ledger, one failure record is written per processed entry — hence
exactly `CIRCUIT_BREAKER_THRESHOLD` records when the feed holds at least
that many unseen entries. -/
theorem C2_circuit_breaker_amended (entries seen0 : List String)
    (arch : Nat → A.AMSResult) (hfail : ∀ k, (arch k).ok = false) :
    (A.run arch entries seen0).attempted.length ≤ A.CIRCUIT_BREAKER_THRESHOLD ∧
    (A.run arch entries seen0).appends = [] ∧
    (A.run arch entries seen0).failures.length =
      (A.run arch entries seen0).attempted.length ∧
    (A.CIRCUIT_BREAKER_THRESHOLD ≤ A.countUnseen entries seen0 →
      (A.run arch entries seen0).failures.length = A.CIRCUIT_BREAKER_THRESHOLD) := by
  obtain ⟨ha, hap, hf, _⟩ :=
    A_allfail_count arch hfail entries (A.initState seen0) rfl
      (by simp [A.initState, A.MAX_POSTS_PER_RUN])
  have hrun : A.run arch entries seen0 = A.processEntries arch entries (A.initState seen0) := rfl
  refine ⟨?_, ?_, ?_, ?_⟩
  · rw [hrun, ha]
    simp only [A.initState, A.MAX_POSTS_PER_RUN, A.CIRCUIT_BREAKER_THRESHOLD]
    simp only [List.length_nil]
    omega
  · rw [hrun, hap]
    simp [A.initState]
  · rw [hrun, ha, hf]
    simp [A.initState]
  · intro hge
    rw [hrun, hf]
    simp only [A.initState, A.MAX_POSTS_PER_RUN, A.CIRCUIT_BREAKER_THRESHOLD] at *
    simp only [List.length_nil]
    omega

/-- Witness for the amended C2: six distinct unseen entries, every call
failing. -/
theorem C2_circuit_breaker_amended_witness :
    (A.run (fun _ => ⟨false, "all_failed", "WB:523|GA:523|AT:523"⟩)
        ["https://www.reddit.com/r/s/1", "https://www.reddit.com/r/s/2",
         "https://www.reddit.com/r/s/3", "https://www.reddit.com/r/s/4",
         "https://www.reddit.com/r/s/5", "https://www.reddit.com/r/s/6"]
        []).appends = [] ∧
    (A.run (fun _ => ⟨false, "all_failed", "WB:523|GA:523|AT:523"⟩)
        ["https://www.reddit.com/r/s/1", "https://www.reddit.com/r/s/2",
         "https://www.reddit.com/r/s/3", "https://www.reddit.com/r/s/4",
         "https://www.reddit.com/r/s/5", "https://www.reddit.com/r/s/6"]
        []).failures.length = A.CIRCUIT_BREAKER_THRESHOLD := by
  have h := C2_circuit_breaker_amended
    ["https://www.reddit.com/r/s/1", "https://www.reddit.com/r/s/2",
     "https://www.reddit.com/r/s/3", "https://www.reddit.com/r/s/4",
     "https://www.reddit.com/r/s/5", "https://www.reddit.com/r/s/6"]
    [] (fun _ => ⟨false, "all_failed", "WB:523|GA:523|AT:523"⟩) (fun _ => rfl)
  exact ⟨h.2.1, h.2.2.2 (by decide)⟩

theorem A_countUnseen_cons_seen {su : String} {rest seen : List String}
    (hne : ∀ e' ∈ rest, convert_to_standard e' ≠ su) :
    A.countUnseen rest (su :: seen) = A.countUnseen rest seen := by
  have hcong : ∀ e' ∈ rest,
      (decide (convert_to_standard e' ∉ su :: seen)) =
        (decide (convert_to_standard e' ∉ seen)) := by
    intro e' he'
    have hx := hne e' he'
    simp [List.mem_cons, hx]
  simp only [A.countUnseen]
  rw [List.filter_congr hcong]

theorem F_countUnseen_cons_mem {e : String} {seen : List String}
    (rest : List String) (hs : e ∈ seen) :
    F.countUnseen (e :: rest) seen = F.countUnseen rest seen := by
  simp [F.countUnseen, List.filter_cons, hs]

theorem F_countUnseen_cons_not_mem {e : String} {seen : List String}
    (rest : List String) (hs : e ∉ seen) :
    F.countUnseen (e :: rest) seen = F.countUnseen rest seen + 1 := by
  simp [F.countUnseen, List.filter_cons, hs]

theorem F_countUnseen_cons_seen {su : String} {rest seen : List String}
    (hne : ∀ e' ∈ rest, e' ≠ su) :
    F.countUnseen rest (su :: seen) = F.countUnseen rest seen := by
  have hcong : ∀ e' ∈ rest,
      (decide (e' ∉ su :: seen)) = (decide (e' ∉ seen)) := by
    intro e' he'
    have hx := hne e' he'
    simp [List.mem_cons, hx]
  simp only [F.countUnseen]
  rw [List.filter_congr hcong]

theorem A_distinct_new_count (arch : Nat → A.AMSResult) :
    ∀ entries st,
      st.consecutive_failures ≤ st.new_count →
      st.new_count ≤ A.MAX_POSTS_PER_RUN →
      (entries.map convert_to_standard).Pairwise (· ≠ ·) →
      (A.processEntries arch entries st).new_count =
        min A.MAX_POSTS_PER_RUN (st.new_count + A.countUnseen entries st.seen) := by
  intro entries
  induction entries with
  | nil =>
    intro st _ hnc _
    simp only [A.processEntries, A.countUnseen, List.filter_nil, List.length_nil,
      Nat.add_zero]
    omega
  | cons e rest ih =>
    intro st hcf hnc hpw
    rw [List.map_cons, List.pairwise_cons] at hpw
    obtain ⟨hhead, htail⟩ := hpw
    have hne : ∀ e' ∈ rest, convert_to_standard e' ≠ convert_to_standard e := by
      intro e' he'
      exact (hhead (convert_to_standard e') (List.mem_map_of_mem _ he')).symm
    simp only [A.processEntries]
    by_cases hs : convert_to_standard e ∈ st.seen
    · rw [if_pos hs, A_countUnseen_cons_mem rest hs]
      exact ih st hcf hnc htail
    · rw [if_neg hs, A_countUnseen_cons_not_mem rest hs]
      by_cases hq : A.MAX_POSTS_PER_RUN ≤ st.new_count
      · rw [if_pos hq]
        show st.new_count = _
        omega
      · rw [if_neg hq]
        have hb : ¬ (A.CIRCUIT_BREAKER_THRESHOLD ≤ st.consecutive_failures) := by
          simp only [A.MAX_POSTS_PER_RUN, A.CIRCUIT_BREAKER_THRESHOLD] at *
          omega
        rw [if_neg hb]
        by_cases hok : (arch st.attempted.length).ok = true
        · rw [if_pos hok]
          rw [ih _ (by show (0 : Nat) ≤ st.new_count + 1; omega)
            (by show st.new_count + 1 ≤ A.MAX_POSTS_PER_RUN; omega) htail]
          show min A.MAX_POSTS_PER_RUN (st.new_count + 1 +
            A.countUnseen rest (convert_to_standard e :: st.seen)) = _
          rw [A_countUnseen_cons_seen hne]
          omega
        · rw [if_neg hok]
          rw [ih _ (by show st.consecutive_failures + 1 ≤ st.new_count + 1; omega)
            (by show st.new_count + 1 ≤ A.MAX_POSTS_PER_RUN; omega) htail]
          show min A.MAX_POSTS_PER_RUN (st.new_count + 1 + A.countUnseen rest st.seen) = _
          omega

theorem A_new_count_eq_attempted (arch : Nat → A.AMSResult) :
    ∀ entries st, st.new_count = st.attempted.length →
      (A.processEntries arch entries st).new_count =
        (A.processEntries arch entries st).attempted.length := by
  intro entries
  induction entries with
  | nil => intro st h; exact h
  | cons e rest ih =>
    intro st h
    simp only [A.processEntries]
    by_cases hs : convert_to_standard e ∈ st.seen
    · rw [if_pos hs]; exact ih st h
    · rw [if_neg hs]
      by_cases hq : A.MAX_POSTS_PER_RUN ≤ st.new_count
      · rw [if_pos hq]; exact h
      · rw [if_neg hq]
        by_cases hb : A.CIRCUIT_BREAKER_THRESHOLD ≤ st.consecutive_failures
        · rw [if_pos hb]; exact h
        · rw [if_neg hb]
          by_cases hok : (arch st.attempted.length).ok = true
          · rw [if_pos hok]
            apply ih
            show st.new_count + 1 = (st.attempted ++ [convert_to_standard e]).length
            simp [h]
          · rw [if_neg hok]
            apply ih
            show st.new_count + 1 = (st.attempted ++ [convert_to_standard e]).length
            simp [h]

theorem A_appends_in_attempted (arch : Nat → A.AMSResult) :
    ∀ entries st, (∀ a ∈ st.appends, a.1 ∈ st.attempted) →
      ∀ a ∈ (A.processEntries arch entries st).appends,
        a.1 ∈ (A.processEntries arch entries st).attempted := by
  intro entries
  induction entries with
  | nil => intro st h; exact h
  | cons e rest ih =>
    intro st h
    simp only [A.processEntries]
    by_cases hs : convert_to_standard e ∈ st.seen
    · rw [if_pos hs]; exact ih st h
    · rw [if_neg hs]
      by_cases hq : A.MAX_POSTS_PER_RUN ≤ st.new_count
      · rw [if_pos hq]; exact h
      · rw [if_neg hq]
        by_cases hb : A.CIRCUIT_BREAKER_THRESHOLD ≤ st.consecutive_failures
        · rw [if_pos hb]; exact h
        · rw [if_neg hb]
          by_cases hok : (arch st.attempted.length).ok = true
          · rw [if_pos hok]
            apply ih
            intro a ha
            show a.1 ∈ st.attempted ++ [convert_to_standard e]
            rcases List.mem_append.mp ha with h' | h'
            · exact List.mem_append.mpr (Or.inl (h a h'))
            · rw [List.mem_singleton.mp h']
              exact List.mem_append.mpr (Or.inr (List.mem_singleton.mpr rfl))
          · rw [if_neg hok]
            apply ih
            intro a ha
            exact List.mem_append.mpr (Or.inl (h a ha))

theorem A_appends_length_le (arch : Nat → A.AMSResult) :
    ∀ entries st, st.appends.length ≤ st.attempted.length →
      (A.processEntries arch entries st).appends.length ≤
        (A.processEntries arch entries st).attempted.length := by
  intro entries
  induction entries with
  | nil => intro st h; exact h
  | cons e rest ih =>
    intro st h
    simp only [A.processEntries]
    by_cases hs : convert_to_standard e ∈ st.seen
    · rw [if_pos hs]; exact ih st h
    · rw [if_neg hs]
      by_cases hq : A.MAX_POSTS_PER_RUN ≤ st.new_count
      · rw [if_pos hq]; exact h
      · rw [if_neg hq]
        by_cases hb : A.CIRCUIT_BREAKER_THRESHOLD ≤ st.consecutive_failures
        · rw [if_pos hb]; exact h
        · rw [if_neg hb]
          by_cases hok : (arch st.attempted.length).ok = true
          · rw [if_pos hok]
            apply ih
            simp only [List.length_append, List.length_cons, List.length_nil]
            omega
          · rw [if_neg hok]
            apply ih
            simp only [List.length_append, List.length_cons, List.length_nil]
            omega

theorem F_distinct_attempted (arch : Nat → PyStatus) :
    ∀ entries st, entries.Pairwise (· ≠ ·) →
      (F.processEntries arch entries st).attempted.length =
        st.attempted.length + F.countUnseen entries st.seen := by
  intro entries
  induction entries with
  | nil =>
    intro st _
    simp [F.processEntries, F.countUnseen]
  | cons e rest ih =>
    intro st hpw
    rw [List.pairwise_cons] at hpw
    obtain ⟨hhead, htail⟩ := hpw
    have hne : ∀ e' ∈ rest, e' ≠ e := fun e' he' => (hhead e' he').symm
    simp only [F.processEntries]
    by_cases hs : e ∈ st.seen
    · rw [if_pos hs, F_countUnseen_cons_mem rest hs]
      exact ih _ htail
    · rw [if_neg hs, F_countUnseen_cons_not_mem rest hs]
      by_cases hok : arch st.attempted.length = .code 200
      · rw [if_pos hok, ih _ htail]
        show (st.attempted ++ [e]).length + F.countUnseen rest (e :: st.seen) = _
        rw [F_countUnseen_cons_seen hne]
        simp only [List.length_append, List.length_cons, List.length_nil]
        omega
      · rw [if_neg hok, ih _ htail]
        show (st.attempted ++ [e]).length + F.countUnseen rest st.seen = _
        simp only [List.length_append, List.length_cons, List.length_nil]
        omega

/-- C3 counterexample: `archiver_fixed.py` has no per-run quota; with six
unseen entries (all succeeding) it attempts all six, not
`MAX_POSTS_PER_RUN = 5`. -/
theorem C3_quota_counterexample :
    (F.run (fun _ => .code 200) ["u1", "u2", "u3", "u4", "u5", "u6"] []).attempted.length = 6 ∧
    A.MAX_POSTS_PER_RUN = 5 := by
  decide

/-- C3 amended: in `archiver.py`, if the feed yields more than
`MAX_POSTS_PER_RUN` unseen entries with pairwise-distinct canonical URLs,
exactly `MAX_POSTS_PER_RUN` entries are attempted (the circuit breaker
cannot fire first: the quota check precedes it and the
consecutive-failure counter never exceeds the attempt counter), every
ledger append is for an attempted URL, and at most `MAX_POSTS_PER_RUN`
appends occur; `archiver_fixed.py` has no quota and attempts every unseen
entry. -/
theorem C3_quota_amended (entries seen0 : List String)
    (archA : Nat → A.AMSResult) (archF : Nat → PyStatus)
    (hdA : (entries.map convert_to_standard).Pairwise (· ≠ ·))
    (hM : A.MAX_POSTS_PER_RUN < A.countUnseen entries seen0) :
    (A.run archA entries seen0).attempted.length = A.MAX_POSTS_PER_RUN ∧
    (A.run archA entries seen0).appends.length ≤ A.MAX_POSTS_PER_RUN ∧
    (∀ a ∈ (A.run archA entries seen0).appends,
      a.1 ∈ (A.run archA entries seen0).attempted) ∧
    (entries.Pairwise (· ≠ ·) →
      (F.run archF entries seen0).attempted.length = F.countUnseen entries seen0) := by
  have hrun : A.run archA entries seen0 = A.processEntries archA entries (A.initState seen0) := rfl
  have hnc := A_distinct_new_count archA entries (A.initState seen0)
    (by simp [A.initState]) (by simp [A.initState]) hdA
  have heq := A_new_count_eq_attempted archA entries (A.initState seen0)
    (by simp [A.initState])
  have hlen : (A.processEntries archA entries (A.initState seen0)).attempted.length =
      A.MAX_POSTS_PER_RUN := by
    rw [← heq, hnc]
    show min A.MAX_POSTS_PER_RUN (0 + A.countUnseen entries seen0) = _
    omega
  refine ⟨by rw [hrun]; exact hlen, ?_, ?_, ?_⟩
  · rw [hrun]
    have h2 := A_appends_length_le archA entries (A.initState seen0) (by simp [A.initState])
    omega
  · rw [hrun]
    exact A_appends_in_attempted archA entries (A.initState seen0) (by simp [A.initState])
  · intro hdF
    have := F_distinct_attempted archF entries (F.initState seen0) hdF
    show (F.processEntries archF entries (F.initState seen0)).attempted.length = _
    rw [this]
    simp [F.initState]

/-- Witness for the amended C3: six distinct unseen entries, every call
succeeding; `archiver.py` attempts five, `archiver_fixed.py` six. -/
theorem C3_quota_amended_witness :
    (A.run (fun _ => ⟨true, "wayback", "https://web.archive.org/web/x"⟩)
        ["https://www.reddit.com/r/s/1", "https://www.reddit.com/r/s/2",
         "https://www.reddit.com/r/s/3", "https://www.reddit.com/r/s/4",
         "https://www.reddit.com/r/s/5", "https://www.reddit.com/r/s/6"]
        []).attempted.length = A.MAX_POSTS_PER_RUN ∧
    (F.run (fun _ => .code 200)
        ["https://www.reddit.com/r/s/1", "https://www.reddit.com/r/s/2",
         "https://www.reddit.com/r/s/3", "https://www.reddit.com/r/s/4",
         "https://www.reddit.com/r/s/5", "https://www.reddit.com/r/s/6"]
        []).attempted.length =
      F.countUnseen
        ["https://www.reddit.com/r/s/1", "https://www.reddit.com/r/s/2",
         "https://www.reddit.com/r/s/3", "https://www.reddit.com/r/s/4",
         "https://www.reddit.com/r/s/5", "https://www.reddit.com/r/s/6"] [] := by
  have h := C3_quota_amended
    ["https://www.reddit.com/r/s/1", "https://www.reddit.com/r/s/2",
     "https://www.reddit.com/r/s/3", "https://www.reddit.com/r/s/4",
     "https://www.reddit.com/r/s/5", "https://www.reddit.com/r/s/6"]
    [] (fun _ => ⟨true, "wayback", "https://web.archive.org/web/x"⟩)
    (fun _ => .code 200) (by decide) (by decide)
  exact ⟨h.1, h.2.2.2 (by decide)⟩

/-- C4: the process exit contract of both programs.  A feed-fetch failure
(non-200 status or fetch/parse exception in `archiver_fixed.py`; no
entries obtainable from any source in `archiver.py`) terminates the run
with exit code 1 before any entry is processed and with zero ledger
writes; an invalid `SUBREDDIT` exits 1; a successful fetch exits 0
whatever the adapters do — including an all-failure run that trips the
circuit breaker. -/
theorem C4_exit_contract (s w m : String) (lg : FileRead) (ss es : List String)
    (archA : Nat → A.AMSResult) (archF : Nat → PyStatus) (c : Nat) :
    (c ≠ 200 →
      (F.main s lg (.resp c es) archF).exitCode = 1 ∧
      (F.main s lg (.resp c es) archF).state.attempted = [] ∧
      (F.main s lg (.resp c es) archF).state.appends = []) ∧
    ((F.main s lg (.exc m) archF).exitCode = 1 ∧
      (F.main s lg (.exc m) archF).state.attempted = [] ∧
      (F.main s lg (.exc m) archF).state.appends = []) ∧
    (F.validate_subreddit s = false → (F.main s lg (.resp 200 es) archF).exitCode = 1) ∧
    (A.validate_subreddit s = false → (A.main s lg (some (es, w)) archA).exitCode = 1) ∧
    (F.validate_subreddit s = true → F.load_seen lg = .ok ss →
      (F.main s lg (.resp 200 es) archF).exitCode = 0) ∧
    ((A.main s lg none archA).exitCode = 1 ∧
      (A.main s lg none archA).state.attempted = [] ∧
      (A.main s lg none archA).state.appends = []) ∧
    ((A.main s lg (some ([], w)) archA).exitCode = 1) ∧
    (A.validate_subreddit s = true → es ≠ [] →
      (A.main s lg (some (es, w)) archA).exitCode = 0) := by
  refine ⟨?_, ?_, ?_, ?_, ?_, ?_, ?_, ?_⟩
  · intro hc
    simp only [F.main]
    by_cases hv : F.validate_subreddit s = true
    · rw [if_neg (by simp [hv])]
      cases hld : F.load_seen lg with
      | error e => exact ⟨rfl, rfl, rfl⟩
      | ok seen => simp [hc, F.initState]
    · rw [if_pos (by simp [Bool.not_eq_true] at hv; simp [hv])]
      exact ⟨rfl, rfl, rfl⟩
  · simp only [F.main]
    by_cases hv : F.validate_subreddit s = true
    · rw [if_neg (by simp [hv])]
      cases hld : F.load_seen lg with
      | error e => exact ⟨rfl, rfl, rfl⟩
      | ok seen => exact ⟨rfl, rfl, rfl⟩
    · rw [if_pos (by simp [Bool.not_eq_true] at hv; simp [hv])]
      exact ⟨rfl, rfl, rfl⟩
  · intro hv
    simp [F.main, hv]
  · intro hv
    simp [A.main, hv]
  · intro hv hld
    simp only [F.main, hv, Bool.not_true, Bool.false_eq_true, if_false, hld]
    by_cases he : es.isEmpty = true
    · simp [he]
    · simp [he]
  · simp only [A.main]
    by_cases hv : A.validate_subreddit s = true
    · rw [if_neg (by simp [hv])]
      exact ⟨rfl, rfl, rfl⟩
    · rw [if_pos (by simp [Bool.not_eq_true] at hv; simp [hv])]
      exact ⟨rfl, rfl, rfl⟩
  · simp only [A.main]
    by_cases hv : A.validate_subreddit s = true
    · rw [if_neg (by simp [hv])]
      rfl
    · rw [if_pos (by simp [Bool.not_eq_true] at hv; simp [hv])]
  · intro hv he
    simp only [A.main, hv, Bool.not_true, Bool.false_eq_true, if_false]
    rw [if_neg (by simpa [List.isEmpty_iff] using he)]

/-- Witness for C4: the HTTP 403 scenario and the exit-0 scenario at
concrete inputs. -/
theorem C4_exit_contract_witness :
    ((F.main "testsub" .absent (.resp 403 ["https://www.reddit.com/r/s/1"])
        (fun _ => .code 200)).exitCode = 1 ∧
      (F.main "testsub" .absent (.resp 403 ["https://www.reddit.com/r/s/1"])
        (fun _ => .code 200)).state.attempted = [] ∧
      (F.main "testsub" .absent (.resp 403 ["https://www.reddit.com/r/s/1"])
        (fun _ => .code 200)).state.appends = []) ∧
    (A.main "testsub" .absent (some (["https://www.reddit.com/r/s/1"], "reddit.com"))
      (fun _ => ⟨false, "all_failed", "WB:523|GA:523|AT:523"⟩)).exitCode = 0 := by
  have h := C4_exit_contract "testsub" "reddit.com" "boom" .absent []
    ["https://www.reddit.com/r/s/1"]
    (fun _ => ⟨false, "all_failed", "WB:523|GA:523|AT:523"⟩)
    (fun _ => .code 200) 403
  exact ⟨h.1 (by decide), h.2.2.2.2.2.2.2 (by decide) (by decide)⟩

theorem archiveGo_requests_le (net : Nat → NetOutcome) (jit : Nat → ℚ)
    (retries : Nat) :
    ∀ rem a, (archiveGo net jit retries a rem).requests ≤ rem := by
  intro rem
  induction rem with
  | zero => intro a; simp [archiveGo]
  | succ m ih =>
    intro a
    cases hna : net a with
    | status n u =>
      simp only [archiveGo, hna]
      by_cases h4 : n = 429
      · rw [if_pos h4]
        by_cases hl : a < retries - 1
        · rw [if_pos hl]
          show (archiveGo net jit retries (a + 1) m).requests + 1 ≤ m + 1
          have := ih (a + 1)
          omega
        · rw [if_neg hl]
          show 1 ≤ m + 1
          omega
      · rw [if_neg h4]
        show 1 ≤ m + 1
        omega
    | timeout =>
      simp only [archiveGo, hna]
      by_cases hl : a < retries - 1
      · rw [if_pos hl]
        show (archiveGo net jit retries (a + 1) m).requests + 1 ≤ m + 1
        have := ih (a + 1)
        omega
      · rw [if_neg hl]
        show 1 ≤ m + 1
        omega
    | connError cm =>
      simp only [archiveGo, hna]
      by_cases hl : a < retries - 1
      · rw [if_pos hl]
        show (archiveGo net jit retries (a + 1) m).requests + 1 ≤ m + 1
        have := ih (a + 1)
        omega
      · rw [if_neg hl]
        show 1 ≤ m + 1
        omega
    | exc em =>
      simp only [archiveGo, hna]
      by_cases hl : a < retries - 1
      · rw [if_pos hl]
        show (archiveGo net jit retries (a + 1) m).requests + 1 ≤ m + 1
        have := ih (a + 1)
        omega
      · rw [if_neg hl]
        show 1 ≤ m + 1
        omega

/-- C6 counterexample: the archive adapters of `archiver.py` issue exactly
one request per invocation — a 429 (Retryable) outcome triggers no retry
at all, although `MAX_RETRIES = 3`.  (Retry logic exists only in
`fetch_with_retry`, which serves the feed fetch, and in
`archiver_fixed.py`'s `archive`.) -/
theorem C6_adapter_retry_counterexample :
    (archive_wayback "https://www.reddit.com/r/a" "reddit.com" (.status 429 "")).1.requests = 1 ∧
    (archive_wayback "https://www.reddit.com/r/a" "reddit.com" (.status 429 "")).1.result = .code 429 ∧
    A.MAX_RETRIES = 3 := by
  decide

/-- C6 amended: in `archiver_fixed.py`, `archive` makes up to `MAX_RETRIES`
attempts; a 429 before the last attempt sleeps `10 * 2^attempt + jitter`
(exponential backoff with jitter, uncapped) and retries, and the final
attempt's outcome is returned verbatim; in `archiver.py` the archive
adapters make exactly one request with no retry. -/
theorem C6_adapter_retry_amended (net : Nat → NetOutcome) (jit : Nat → ℚ)
    (url inst u1 u2 u3 : String) (n : Nat) (no : NetOutcome) :
    (archive net jit F.MAX_RETRIES).requests ≤ F.MAX_RETRIES ∧
    (net 0 = .status 429 u1 → net 1 = .status 429 u2 → net 2 = .status n u3 →
      archive net jit F.MAX_RETRIES =
        ⟨.code n, 3, [(2 ^ 0 : ℚ) * 10 + jit 0, (2 ^ 1 : ℚ) * 10 + jit 1]⟩) ∧
    (archive_wayback url inst no).1.requests = 1 := by
  refine ⟨archiveGo_requests_le net jit F.MAX_RETRIES F.MAX_RETRIES 0, ?_, ?_⟩
  · intro h0 h1 h2
    show archiveGo net jit 3 0 3 = _
    simp only [archiveGo, h0, h1, h2]
    norm_num
    by_cases h4 : n = 429
    · subst h4
      norm_num
    · rw [if_neg h4]
      exact ⟨rfl, rfl, rfl⟩
  · cases no with
    | status n u =>
      simp only [archive_wayback]
      split <;> rfl
    | timeout => rfl
    | connError cm => rfl
    | exc em => rfl

/-- Witness for the amended C6: two rate-limits then a 523, with zero
jitter draws. -/
theorem C6_adapter_retry_amended_witness :
    (archive
        (fun k => if k = 0 then .status 429 "" else if k = 1 then .status 429 "" else .status 523 "")
        (fun _ => 0) F.MAX_RETRIES).requests ≤ F.MAX_RETRIES ∧
    archive
        (fun k => if k = 0 then .status 429 "" else if k = 1 then .status 429 "" else .status 523 "")
        (fun _ => 0) F.MAX_RETRIES =
      ⟨.code 523, 3, [(2 ^ 0 : ℚ) * 10 + 0, (2 ^ 1 : ℚ) * 10 + 0]⟩ := by
  have h := C6_adapter_retry_amended
    (fun k => if k = 0 then .status 429 "" else if k = 1 then .status 429 "" else .status 523 "")
    (fun _ => 0) "u" "i" "" "" "" 523 .timeout
  exact ⟨h.1, h.2.1 rfl rfl rfl⟩

theorem parseSeenLines_append (xs ys : List String) :
    parseSeenLines (xs ++ ys) = parseSeenLines xs ++ parseSeenLines ys := by
  induction xs with
  | nil => rfl
  | cons l rest ih =>
    simp only [List.cons_append, parseSeenLines, List.append_eq]
    by_cases he : (stripL l.data).isEmpty = true
    · rw [if_pos he, if_pos he, ih]
    · rw [if_neg he, if_neg he]
      by_cases hp : (stripL l.data).contains '|' = true
      · rw [if_pos hp, if_pos hp]
        cases splitPipe (stripL l.data) with
        | nil => exact ih
        | cons p ps =>
          cases ps with
          | nil => exact ih
          | cons q qs => simp [ih]
      · rw [if_neg hp, if_neg hp]
        simp [ih]

theorem pyIsSpace_pipe : pyIsSpace '|' = false := by decide

theorem dropWhile_append_pipe (a b : List Char) :
    (a ++ '|' :: b).dropWhile pyIsSpace = a.dropWhile pyIsSpace ++ '|' :: b := by
  rw [List.dropWhile_append]
  by_cases he : (a.dropWhile pyIsSpace).isEmpty = true
  · rw [if_pos he, List.dropWhile_cons_of_neg (by simp [pyIsSpace_pipe])]
    rw [List.isEmpty_iff] at he
    rw [he, List.nil_append]
  · rw [if_neg he]

theorem rstripL_append_pipe (a b : List Char) :
    rstripL (a ++ '|' :: b) = a ++ '|' :: rstripL b := by
  unfold rstripL
  rw [List.reverse_append, List.reverse_cons, List.append_assoc,
    List.dropWhile_append]
  by_cases he : (b.reverse.dropWhile pyIsSpace).isEmpty = true
  · rw [if_pos he]
    rw [List.isEmpty_iff] at he
    rw [he]
    simp only [List.singleton_append,
      List.dropWhile_cons_of_neg (by simp [pyIsSpace_pipe] : ¬ pyIsSpace '|' = true)]
    simp
  · rw [if_neg he]
    simp

theorem stripL_pipe_decomp (a b : List Char) :
    stripL (a ++ '|' :: b) = a.dropWhile pyIsSpace ++ '|' :: rstripL b := by
  show rstripL ((a ++ '|' :: b).dropWhile pyIsSpace) = _
  rw [dropWhile_append_pipe, rstripL_append_pipe]

theorem splitPipe_append_pipe (a b : List Char) (ha : '|' ∉ a) :
    splitPipe (a ++ '|' :: b) = a :: splitPipe b := by
  induction a with
  | nil =>
    simp [splitPipe]
  | cons c a' ih =>
    have hc : c ≠ '|' := fun h => ha (h ▸ List.mem_cons_self c a')
    have ha' : '|' ∉ a' := fun h => ha (List.mem_cons_of_mem c h)
    simp only [List.cons_append, splitPipe, if_neg hc, List.append_eq, ih ha']

theorem splitPipe_no_pipe (b : List Char) (hb : '|' ∉ b) :
    splitPipe b = [b] := by
  induction b with
  | nil => rfl
  | cons c b' ih =>
    have hc : c ≠ '|' := fun h => hb (h ▸ List.mem_cons_self c b')
    have hb' : '|' ∉ b' := fun h => hb (List.mem_cons_of_mem c h)
    simp only [splitPipe, if_neg hc, ih hb']

theorem mk_data_eq (u : String) : String.mk u.data = u := by
  cases u
  rfl

theorem dropWhile_no_pipe {a : List Char} (ha : '|' ∉ a) :
    '|' ∉ a.dropWhile pyIsSpace :=
  fun h => ha (List.dropWhile_subset pyIsSpace h)

/-- Parsing the line written by `archiver.py`'s `append_seen` recovers the
URL field, whatever the other fields hold. -/
theorem parse_seenLineA (ts u au svc : String)
    (hts : '|' ∉ ts.data) (hu : '|' ∉ u.data) :
    parseSeenLines [A.seenLine ts u au svc] = [u] := by
  have hdata : (A.seenLine ts u au svc).data =
      ts.data ++ '|' :: (u.data ++ '|' :: (au.data ++ '|' :: svc.data)) := by
    simp [A.seenLine, String.data_append]
  have hstrip : stripL (A.seenLine ts u au svc).data =
      ts.data.dropWhile pyIsSpace ++ '|' ::
        (u.data ++ '|' :: (au.data ++ '|' :: rstripL svc.data)) := by
    rw [hdata, stripL_pipe_decomp, rstripL_append_pipe, rstripL_append_pipe]
  have hsplit : splitPipe (stripL (A.seenLine ts u au svc).data) =
      ts.data.dropWhile pyIsSpace :: u.data ::
        splitPipe (au.data ++ '|' :: rstripL svc.data) := by
    rw [hstrip, splitPipe_append_pipe _ _ (dropWhile_no_pipe hts),
      splitPipe_append_pipe _ _ hu]
  have hne : (stripL (A.seenLine ts u au svc).data).isEmpty = false := by
    rw [hstrip]
    cases hd : ts.data.dropWhile pyIsSpace <;> simp [hd]
  have hcontains : (stripL (A.seenLine ts u au svc).data).contains '|' = true := by
    rw [hstrip]
    simp [List.contains_iff_exists_mem_beq]
  simp only [parseSeenLines, hne, Bool.false_eq_true, if_false, hcontains, if_true,
    hsplit, mk_data_eq]

/-- Parsing the line written by `archiver_fixed.py`'s `append_seen`
recovers the URL field, provided the URL has no trailing whitespace. -/
theorem parse_seenLineF (ts u : String)
    (hts : '|' ∉ ts.data) (hu : '|' ∉ u.data)
    (hend : rstripL u.data = u.data) :
    parseSeenLines [F.seenLine ts u] = [u] := by
  have hdata : (F.seenLine ts u).data = ts.data ++ '|' :: u.data := by
    simp [F.seenLine, String.data_append]
  have hstrip : stripL (F.seenLine ts u).data =
      ts.data.dropWhile pyIsSpace ++ '|' :: u.data := by
    rw [hdata, stripL_pipe_decomp, hend]
  have hsplit : splitPipe (stripL (F.seenLine ts u).data) =
      ts.data.dropWhile pyIsSpace :: [u.data] := by
    rw [hstrip, splitPipe_append_pipe _ _ (dropWhile_no_pipe hts),
      splitPipe_no_pipe _ hu]
  have hne : (stripL (F.seenLine ts u).data).isEmpty = false := by
    rw [hstrip]
    cases hd : ts.data.dropWhile pyIsSpace <;> simp [hd]
  have hcontains : (stripL (F.seenLine ts u).data).contains '|' = true := by
    rw [hstrip]
    simp [List.contains_iff_exists_mem_beq]
  simp only [parseSeenLines, hne, Bool.false_eq_true, if_false, hcontains, if_true,
    hsplit, mk_data_eq]

/-- C10 counterexample: in `archiver_fixed.py`, a URL with no `'|'` and no
newline but ending in a space does not round-trip: `load_seen` strips the
line, so the stored field is `"a"`, not `"a "`. -/
theorem C10_seen_roundtrip_counterexample :
    ('|' ∉ "a ".data) ∧ ('\n' ∉ "a ".data) ∧
    F.load_seen (.content [F.seenLine "2024-01-01 00:00:00" "a "]) = .ok ["a"] ∧
    ("a " : String) ∉ (["a"] : List String) := by
  refine ⟨by decide, by decide, rfl, by decide⟩

/-- C10 amended: after `append_seen` writes its record for `u` to a seen
file within the retention limit, `load_seen` returns a set containing `u`,
for every `u` free of `'|'` (newlines are excluded by the line-based file
model): unconditionally in `archiver.py`, and in `archiver_fixed.py`
provided `u` additionally has no trailing whitespace (`u` is the last
field there, and `load_seen` strips each line). -/
theorem C10_seen_roundtrip_amended (prior : List String) (ts u au svc : String)
    (hts : '|' ∉ ts.data) (hu : '|' ∉ u.data)
    (hlenA : prior.length + 1 ≤ A.MAX_SEEN_ENTRIES)
    (hlenF : prior.length + 1 ≤ F.MAX_SEEN_ENTRIES) :
    u ∈ A.load_seen (.content (prior ++ [A.seenLine ts u au svc])) ∧
    (rstripL u.data = u.data →
      F.load_seen (.content (prior ++ [F.seenLine ts u])) =
        .ok (parseSeenLines prior ++ [u]) ∧
      u ∈ parseSeenLines prior ++ [u]) := by
  constructor
  · show u ∈ parseSeenLines (trimLines A.MAX_SEEN_ENTRIES (prior ++ [A.seenLine ts u au svc]))
    rw [show trimLines A.MAX_SEEN_ENTRIES (prior ++ [A.seenLine ts u au svc]) =
        prior ++ [A.seenLine ts u au svc] from by
      unfold trimLines
      rw [if_neg (by simp only [List.length_append, List.length_cons, List.length_nil]; omega)]]
    rw [parseSeenLines_append, parse_seenLineA ts u au svc hts hu]
    exact List.mem_append.mpr (Or.inr (List.mem_singleton.mpr rfl))
  · intro hend
    have htrim : trimLines F.MAX_SEEN_ENTRIES (prior ++ [F.seenLine ts u]) =
        prior ++ [F.seenLine ts u] := by
      unfold trimLines
      rw [if_neg (by simp only [List.length_append, List.length_cons, List.length_nil]; omega)]
    constructor
    · show Except.ok (parseSeenLines (trimLines F.MAX_SEEN_ENTRIES (prior ++ [F.seenLine ts u]))) = _
      rw [htrim, parseSeenLines_append, parse_seenLineF ts u hts hu hend]
    · exact List.mem_append.mpr (Or.inr (List.mem_singleton.mpr rfl))

/-- Witness for the amended C10 at concrete inputs. -/
theorem C10_seen_roundtrip_amended_witness :
    "https://www.reddit.com/r/s/1" ∈
      A.load_seen (.content
        ["2024-01-01 00:00:00|https://www.reddit.com/r/old|x|wayback",
         A.seenLine "2024-01-02 03:04:05" "https://www.reddit.com/r/s/1"
           "https://web.archive.org/web/1" "wayback"]) ∧
    "https://www.reddit.com/r/s/1" ∈
      parseSeenLines ["2024-01-01 00:00:00|https://www.reddit.com/r/old"] ++
        ["https://www.reddit.com/r/s/1"] := by
  have h := C10_seen_roundtrip_amended
    ["2024-01-01 00:00:00|https://www.reddit.com/r/old|x|wayback"]
    "2024-01-02 03:04:05" "https://www.reddit.com/r/s/1"
    "https://web.archive.org/web/1" "wayback"
    (by decide) (by decide) (by decide) (by decide)
  have h2 := C10_seen_roundtrip_amended
    ["2024-01-01 00:00:00|https://www.reddit.com/r/old"]
    "2024-01-02 03:04:05" "https://www.reddit.com/r/s/1"
    "https://web.archive.org/web/1" "wayback"
    (by decide) (by decide) (by decide) (by decide)
  exact ⟨h.1, (h2.2 (by decide)).2⟩

/-- Witness for the amended C1 at concrete inputs. -/
theorem C1_dedup_skip_amended_witness :
    convert_to_standard "https://old.reddit.com/r/a" ∉
      (A.run (fun _ => ⟨false, "all_failed", "WB:523|GA:523|AT:523"⟩)
        ["https://old.reddit.com/r/a"]
        ["https://www.reddit.com/r/a"]).attempted ∧
    "https://www.reddit.com/r/a" ∉
      (F.run (fun _ => .code 523) ["https://old.reddit.com/r/a", "https://www.reddit.com/r/a"]
        ["https://www.reddit.com/r/a"]).attempted := by
  constructor
  · exact (C1_dedup_skip_amended "https://old.reddit.com/r/a"
      ["https://old.reddit.com/r/a"] ["https://www.reddit.com/r/a"]
      (fun _ => ⟨false, "all_failed", "WB:523|GA:523|AT:523"⟩)
      (fun _ => .code 523)).1 (by decide)
  · exact (C1_dedup_skip_amended "https://www.reddit.com/r/a"
      ["https://old.reddit.com/r/a", "https://www.reddit.com/r/a"]
      ["https://www.reddit.com/r/a"]
      (fun _ => ⟨false, "all_failed", "WB:523|GA:523|AT:523"⟩)
      (fun _ => .code 523)).2 (by decide)

end Backuper
